import Mathlib

/-!
# Verification of the refacto-ai scan-and-document core

This file embeds the core of the repository's scan-and-document pipeline
(`src/app/services/scanner.py` and `src/app/services/documenter.py`) as
executable Lean definitions and proves or refutes the frozen claims about it.

Conventions of the embedding:
* file contents are `List Char` (Python `str`);
* Python `str.splitlines` / `'\n'.join` are modelled for the `'\n'` separator,
  the only line terminator occurring in the analysed inputs;
* the CPython `ast` module is external to the repository: Python trees are
  modelled by the inductive `PyNode`, `ast.walk`'s breadth-first traversal by
  `walkList`, and `ast.parse` by `pyParse`, an executable parser for the
  subset of Python exercised here (`def`/`async def`/`class` headers, simple
  statements, single-line docstrings); contents outside this subset are
  rejected with an error;
* the analysis cache (`utils/cache.py`) performs external I/O; per spec §4.4 a
  miss recomputes, so file analysis is modelled on the cache-miss path;
* the OpenAI call in the documenter is an external text-generation service and
  is a parameter (`responses`) of the per-file handlers.
-/

set_option autoImplicit false

namespace Refacto

/-! ## Character classes (Python `str.strip` / regex `\s`, `\w`) -/

/-- Whitespace for Python's `str.strip`/`lstrip`/`rstrip` and for the regex
class `\s` (ASCII range): space, tab, newline, carriage return, form feed,
vertical tab. -/
def isPySpace (c : Char) : Bool :=
  c = ' ' || c = '\t' || c = '\n' || c = '\r' || c = '\x0b' || c = '\x0c'

/-- Regex word class `\w` (ASCII part, which covers the analysed inputs). -/
def isWordChar (c : Char) : Bool :=
  c.isAlpha || c.isDigit || c = '_'

/-- Python `str.lstrip()`. -/
def pyLStrip (s : List Char) : List Char := s.dropWhile isPySpace

/-- Python `str.rstrip()`. -/
def pyRStrip (s : List Char) : List Char :=
  (s.reverse.dropWhile isPySpace).reverse

/-- Python `str.strip()`. -/
def pyStrip (s : List Char) : List Char := pyLStrip (pyRStrip s)

/-! ## Lines: Python `str.splitlines` and `'\n'.join` -/

/-- Split on every `'\n'`, keeping a (possibly empty) final piece: the raw
separator split underlying `splitLines`. -/
def splitOnNl : List Char → List (List Char)
  | [] => [[]]
  | c :: rest =>
    if c = '\n' then [] :: splitOnNl rest
    else
      match splitOnNl rest with
      | [] => [[c]]
      | h :: t => (c :: h) :: t

/-- Python `str.splitlines()` restricted to `'\n'` terminators: the separator
split with a trailing empty piece removed. -/
def splitLines (s : List Char) : List (List Char) :=
  let ps := splitOnNl s
  if ps.getLast? = some [] then ps.dropLast else ps

/-- Python `'\n'.join(lines)`. -/
def intercalateNl : List (List Char) → List Char
  | [] => []
  | [x] => x
  | x :: y :: t => x ++ '\n' :: intercalateNl (y :: t)

/-- Python `list.insert(i, x)`: insert before index `i`, appending when `i`
is past the end. -/
def pyInsert {α : Type} (i : Nat) (x : α) (l : List α) : List α :=
  l.take i ++ x :: l.drop i

/-- Number of leading whitespace characters of a line:
`len(line) - len(line.lstrip())`. -/
def indentWidth (line : List Char) : Nat :=
  (line.takeWhile isPySpace).length

/-- Does `sub` occur as a contiguous substring of `s`? -/
def containsSeq (sub : List Char) : List Char → Bool
  | [] => sub.isPrefixOf []
  | c :: rest => sub.isPrefixOf (c :: rest) || containsSeq sub rest

/-- The regex `/\*\*.*?\*/` (with `re.DOTALL`) has a match inside `s`:
some occurrence of `/**` is followed, at least three characters later, by
`*/`. -/
def containsJsdocPat : List Char → Bool
  | [] => false
  | c :: rest =>
    (['/', '*', '*'].isPrefixOf (c :: rest) && containsSeq ['*', '/'] (rest.drop 2))
    || containsJsdocPat rest

/-! ## Data model

`src/app/models.py` is imported by the services but is not present under the
repository checkout, so the record is modelled from the spec. -/

/-- Modelled from the spec: `UndocumentedItem` (spec §3) — the dict appended by
`CodeScanner._parse_python` / `_parse_javascript`, with keys `type` (the spec's
`kind`), `name`, `line` (1-based declaration start) and `code` (exact source
substring of the unit). -/
structure UndocumentedItem where
  type : String
  name : String
  line : Nat
  code : List Char
  deriving Repr, DecidableEq

/-- Modelled from the spec: `FileAnalysis` (spec §3) — `models.py` is missing
from the checkout; fields and defaults follow spec §3 and the constructor
calls in `scanner.py` (`FileAnalysis(path=path, needs_docs=False)` leaves
`language`, `original_content` and `undocumented_items` at their defaults). -/
structure FileAnalysis where
  path : String
  language : String := "unsupported"
  needs_docs : Bool := false
  original_content : List Char := []
  undocumented_items : List UndocumentedItem := []
  deriving Repr, DecidableEq

/-! ## Python AST (external `ast` module)

The CPython `ast` module is external to the repository.  `PyNode` keeps the
fields the scanner reads: node class, `name`, `lineno`, the value
`ast.get_docstring` returns (cleaned docstring), the value
`ast.get_source_segment` returns, and the `def`/`class` children relevant to
`ast.walk`'s filtered traversal. -/

/-- The three node classes `CodeScanner._parse_python` selects. -/
inductive PyKind where
  | functionDef
  | asyncFunctionDef
  | classDef
  deriving Repr, DecidableEq

/-- A Python `def`/`async def`/`class` node. -/
inductive PyNode where
  | mk (kind : PyKind) (name : String) (lineno : Nat)
       (docstring : Option (List Char)) (code : List Char)
       (body : List PyNode)

def PyNode.kind : PyNode → PyKind
  | .mk k _ _ _ _ _ => k

def PyNode.name : PyNode → String
  | .mk _ n _ _ _ _ => n

def PyNode.lineno : PyNode → Nat
  | .mk _ _ l _ _ _ => l

def PyNode.docstring : PyNode → Option (List Char)
  | .mk _ _ _ d _ _ => d

def PyNode.code : PyNode → List Char
  | .mk _ _ _ _ c _ => c

def PyNode.body : PyNode → List PyNode
  | .mk _ _ _ _ _ b => b

mutual

def PyNode.size : PyNode → Nat
  | .mk _ _ _ _ _ b => 1 + PyNode.sizeList b

def PyNode.sizeList : List PyNode → Nat
  | [] => 0
  | n :: t => PyNode.size n + PyNode.sizeList t

end

theorem PyNode.sizeList_append (a b : List PyNode) :
    PyNode.sizeList (a ++ b) = PyNode.sizeList a + PyNode.sizeList b := by
  induction a with
  | nil => simp [PyNode.sizeList]
  | cons n t ih => simp [PyNode.sizeList, ih]; omega

/-- One `ast.walk` dequeue step, with explicit fuel so that the definition is
structurally recursive (and hence reduces inside the kernel).  `walkList`
supplies fuel `PyNode.sizeList ns`, which is exactly the number of steps the
queue takes: each step emits one node and enqueues its children. -/
def walkAux : Nat → List PyNode → List PyNode
  | 0, _ => []
  | _, [] => []
  | fuel + 1, n :: rest => n :: walkAux fuel (rest ++ n.body)

/-- `ast.walk`: breadth-first traversal (a FIFO queue seeded with the root's
children; the `Module` root itself is never one of the three selected
classes, so it is left out). -/
def walkList (ns : List PyNode) : List PyNode :=
  walkAux (PyNode.sizeList ns) ns

/-! ## `CodeScanner` (src/app/services/scanner.py) -/

namespace CodeScanner

/-- `self.supported_languages` (constructor, scanner.py lines 14-20): extension
(lower-case) to language name. -/
def supported_languages : List (String × String) :=
  [(".py", "python"), (".js", "javascript"), (".ts", "typescript"),
   (".jsx", "javascript"), (".tsx", "typescript")]

/-- `pathlib.PurePath.suffix` (external stdlib): the final component's
extension — the substring of the basename from its last dot, when that dot is
neither the first character nor the last. -/
def pathSuffix (path : String) : List Char :=
  let name := (path.data.reverse.takeWhile (fun c => c ≠ '/')).reverse
  let beforeDot := name.reverse.dropWhile (fun c => c ≠ '.')
  match beforeDot with
  | [] => []                               -- no dot in the basename
  | _ :: stem =>
    if stem = [] then []                   -- dot is the first character
    else
      let afterDot := name.reverse.takeWhile (fun c => c ≠ '.')
      if afterDot = [] then []             -- dot is the last character
      else '.' :: afterDot.reverse

/-- `Path(path).suffix.lower()` as computed in `_is_supported_file` and
`_parse_code`. -/
def extOf (path : String) : List Char :=
  (pathSuffix path).map Char.toLower

/-- `CodeScanner._is_supported_file` (scanner.py lines 77-80). -/
def is_supported_file (path : String) : Bool :=
  supported_languages.any (fun kv => kv.1.data = extOf path)

/-- `self.supported_languages.get(ext)` in `_parse_code`. -/
def languageOf (path : String) : Option String :=
  (supported_languages.find? (fun kv => kv.1.data = extOf path)).map (·.2)

/-- `CodeScanner._has_proper_docs` (scanner.py lines 152-157):
`ast.get_docstring(node) is not None and len(ast.get_docstring(node).strip()) > 10`. -/
def has_proper_docs (node : PyNode) : Bool :=
  match node.docstring with
  | none => false
  | some d => decide (10 < (pyStrip d).length)

/-- `CodeScanner._has_jsdoc` (scanner.py lines 159-169): right-strip the text
preceding the match, return `False` when nothing is left, otherwise search the
part after the last remaining newline for the pattern `/\*\*.*?\*/`. -/
def has_jsdoc (preceding_code : List Char) : Bool :=
  let trimmed := pyRStrip preceding_code
  if trimmed = [] then false
  else
    let search_area := (trimmed.reverse.takeWhile (fun c => c ≠ '\n')).reverse
    containsJsdocPat search_area

/-- The dict literal appended by `_parse_python` (scanner.py lines 115-120). -/
def itemOfNode (node : PyNode) : UndocumentedItem :=
  { type := match node.kind with
      | .classDef => "class"
      | _ => "function"
    name := node.name
    line := node.lineno
    code := node.code }

/-- The `ast.walk` loop of `_parse_python` (scanner.py lines 111-122) applied
to an already-parsed tree: select `def`/`async def`/`class` nodes in
breadth-first order, keep those without proper docs. -/
def analyzeTree (body : List PyNode) (content : List Char) (path : String) :
    FileAnalysis :=
  let undoc := (walkList body).filterMap
    (fun n => if has_proper_docs n then none else some (itemOfNode n))
  { path := path
    language := "python"
    needs_docs := !undoc.isEmpty
    original_content := content
    undocumented_items := undoc }

end CodeScanner

/-! ### The regex `js_function_pattern` (scanner.py lines 23-28)

```
(?P<prefix>(export\s+)?(async\s+)?
  (function\*?\s+|const\s+\w+\s*=\s*(async\s+)?function\*?\s*|class\s+))
(?P<name>\w+)(?P<params>\([^)]*\))
```

The matcher below is committed (maximal munch).  For this particular pattern
that coincides with the regex engine's backtracking semantics: after each
greedy `\s+`/`\s*`/`\w+`/`\*?` the next pattern token can never start with a
character of the repeated class, and skipping an optional group
(`export\s+`, `async\s+`) can never help, because no alternative that follows
can begin with the letters `export`/`async`. -/

/-- Consume a literal. -/
def matchLit (lit s : List Char) : Option (List Char) :=
  if lit.isPrefixOf s then some (s.drop lit.length) else none

/-- Consume `\s+` (greedy). -/
def matchWs1 (s : List Char) : Option (List Char) :=
  match s with
  | c :: rest => if isPySpace c then some (rest.dropWhile isPySpace) else none
  | [] => none

/-- Consume `\s*` (greedy). -/
def matchWsStar (s : List Char) : List Char := s.dropWhile isPySpace

/-- Consume `\w+` (greedy), returning the word. -/
def matchWord1 (s : List Char) : Option (List Char × List Char) :=
  let w := s.takeWhile isWordChar
  if w = [] then none else some (w, s.drop w.length)

/-- Consume `\*?`. -/
def matchStarOpt (s : List Char) : List Char :=
  match s with
  | '*' :: r => r
  | _ => s

/-- Consume an optional group. -/
def matchOpt (m : List Char → Option (List Char)) (s : List Char) : List Char :=
  match m s with
  | some r => r
  | none => s

/-- The three alternatives of the `prefix` group, tried in pattern order. -/
def matchAlt (s : List Char) : Option (List Char) :=
  (do let t ← matchLit "function".data s
      matchWs1 (matchStarOpt t))
  <|>
  (do let t ← matchLit "const".data s
      let t ← matchWs1 t
      let (_, t) ← matchWord1 t
      let t := matchWsStar t
      let t ← matchLit "=".data t
      let t := matchWsStar t
      let t := matchOpt (fun u => do
        let u ← matchLit "async".data u
        matchWs1 u) t
      let t ← matchLit "function".data t
      some (matchWsStar (matchStarOpt t)))
  <|>
  (do let t ← matchLit "class".data s
      matchWs1 t)

/-- Try `js_function_pattern` anchored at the start of `s`; on success return
the matched length and the `name` group. -/
def tryMatchAt (s : List Char) : Option (Nat × String) := do
  let s1 := matchOpt (fun t => do
    let t ← matchLit "export".data t
    matchWs1 t) s
  let s2 := matchOpt (fun t => do
    let t ← matchLit "async".data t
    matchWs1 t) s1
  let s3 ← matchAlt s2
  let (w, s4) ← matchWord1 s3
  let s5 ← matchLit "(".data s4
  let inside := s5.takeWhile (fun c => c ≠ ')')
  let s6 ← matchLit ")".data (s5.drop inside.length)
  some (s.length - s6.length, String.mk w)

/-- `finditer` scan with explicit fuel (every step advances through at least
one character, so `findIter` seeds the fuel with the content length). -/
def findIterAux : Nat → List Char → Nat → List (Nat × String × List Char)
  | 0, _, _ => []
  | _, [], _ => []
  | fuel + 1, c :: rest, i =>
    match tryMatchAt (c :: rest) with
    | some (len, name) =>
      let step := max len 1
      (i, name, (c :: rest).take len) ::
        findIterAux fuel ((c :: rest).drop step) (i + step)
    | none => findIterAux fuel rest (i + 1)

/-- `finditer`: scan left to right, emit non-overlapping matches, resume after
each match's end (advancing at least one character). -/
def findIter (s : List Char) (i : Nat) : List (Nat × String × List Char) :=
  findIterAux s.length s i

namespace CodeScanner

/-- `CodeScanner._parse_javascript` (scanner.py lines 124-150): run the
pattern over the content; every match whose preceding text has no JSDoc per
`_has_jsdoc` becomes an item with `type` fixed to `'function'` and `line`
computed as `content[:match.start()].count('\n') + 1`. -/
def parse_javascript (content : List Char) (path : String) (language : String) :
    FileAnalysis :=
  let undoc := (findIter content 0).filterMap (fun m =>
    let preceding := content.take m.1
    if has_jsdoc preceding then none
    else some { type := "function"
                name := m.2.1
                line := preceding.count '\n' + 1
                code := m.2.2 })
  { path := path
    language := language
    needs_docs := !undoc.isEmpty
    original_content := content
    undocumented_items := undoc }

end CodeScanner

/-! ### `ast.parse` for the analysed subset of Python

`ast.parse` is the CPython parser (external stdlib).  `pyParse` is an
executable model of it for the fragment of Python the verified scenarios use:
`def` / `async def` / `class` headers of the shape `def name(params):` /
`class name[(bases)]:` with space indentation, simple one-line statements, and
an optional single-line triple-quoted docstring as the first body statement.
Content outside the subset (tab indentation, compound statements such as
`if:`/`for:`, comments, multi-line expressions, malformed headers, missing
indented bodies) is rejected with an error; on the malformed inputs used below
CPython's parser raises `SyntaxError` as well. -/

/-- Is the stripped line blank? -/
def isBlank (raw : List Char) : Bool := pyStrip raw = []

/-- Does the stripped line start with the keyword token `kw` (the keyword
followed by a non-word character or end of line)? -/
def startsKw (kw : List Char) (s : List Char) : Bool :=
  kw.isPrefixOf s && !(isWordChar ((s.drop kw.length).headD ' '))

/-- Does a stripped line open a `def`/`async def`/`class` statement? -/
def isHeaderStart (s : List Char) : Bool :=
  startsKw "def".data s || startsKw "class".data s ||
  (startsKw "async".data s &&
    startsKw "def".data (pyLStrip (s.drop 5)))

/-- Parse `name(params):` after the `def` keyword, or `name[(bases)]:` after
`class`. -/
def parseHeaderTail (requireParens : Bool) (s : List Char) :
    Except String String :=
  let s := pyLStrip s
  let nm := s.takeWhile isWordChar
  if nm = [] then .error "syntax: missing name" else
  let s := pyLStrip (s.drop nm.length)
  match s with
  | '(' :: afterParen =>
    let inside := afterParen.takeWhile (fun c => c ≠ ')')
    (match afterParen.drop inside.length with
     | ')' :: afterClose =>
       if pyLStrip afterClose = [':'] then .ok (String.mk nm)
       else .error "syntax: bad header end"
     | _ => .error "syntax: unclosed parenthesis")
  | [':'] =>
    if requireParens then .error "syntax: missing parameter list"
    else .ok (String.mk nm)
  | _ => .error "syntax: bad header"

/-- Parse a stripped header line into node class and name. -/
def parseHeader (s : List Char) : Except String (PyKind × String) :=
  if startsKw "def".data s then
    (parseHeaderTail true (s.drop 3)).map (fun n => (PyKind.functionDef, n))
  else if startsKw "class".data s then
    (parseHeaderTail false (s.drop 5)).map (fun n => (PyKind.classDef, n))
  else
    (parseHeaderTail true (pyLStrip ((pyLStrip (s.drop 5)).drop 3))).map
      (fun n => (PyKind.asyncFunctionDef, n))

/-- Indentation of the next non-blank line, if any. -/
def nextNonBlankIndent : List (Nat × List Char) → Option Nat
  | [] => none
  | (_, raw) :: rest =>
    if isBlank raw then nextNonBlankIndent rest else some (indentWidth raw)

/-- A single-line triple-quoted string literal, as `ast.get_docstring` with
`clean=True` returns it (for a one-line literal: leading whitespace of the
line's text removed). -/
def docOfLine (stripped : List Char) : Option (List Char) :=
  let q := ['\"', '\"', '\"']
  if q.isPrefixOf stripped && 6 ≤ stripped.length &&
     q.isPrefixOf stripped.reverse then
    some (pyLStrip ((stripped.drop 3).take (stripped.length - 6)))
  else none

/-- Consume a leading docstring statement (after any blank lines) at body
indentation `bi`; on failure return the line list unchanged. -/
def takeDocstring (bi : Nat) : List (Nat × List Char) →
    Option (List Char) × List (Nat × List Char)
  | [] => (none, [])
  | (ln, raw) :: rest =>
    if isBlank raw then
      match takeDocstring bi rest with
      | (some d, r) => (some d, r)
      | (none, _) => (none, (ln, raw) :: rest)
    else if indentWidth raw = bi then
      match docOfLine (pyStrip raw) with
      | some d => (some d, rest)
      | none => (none, (ln, raw) :: rest)
    else (none, (ln, raw) :: rest)

/-- Drop trailing blank lines (for `ast.get_source_segment`, which ends a
node at its last statement line). -/
def dropTrailingBlanks (raws : List (List Char)) : List (List Char) :=
  (raws.reverse.dropWhile isBlank).reverse

/-- Statement-sequence parser: parse the statements at exact indentation
`ind`, stopping at the first line that dedents below `ind`.  Returns the
`def`/`async def`/`class` nodes (the only statements `ast.walk`'s filtered
traversal can select in this fragment) and the unconsumed lines. -/
def parseStmts : Nat → Nat → List (Nat × List Char) →
    Except String (List PyNode × List (Nat × List Char))
  | 0, _, _ => .error "internal: fuel exhausted"
  | _ + 1, _, [] => .ok ([], [])
  | fuel + 1, ind, (ln, raw) :: rest =>
    let stripped := pyStrip raw
    if stripped = [] then parseStmts fuel ind rest
    else if (raw.takeWhile isPySpace).contains '\t' then
      .error "syntax: tab indentation outside modelled subset"
    else
      let iw := indentWidth raw
      if iw < ind then .ok ([], (ln, raw) :: rest)
      else if ind < iw then .error "syntax: unexpected indent"
      else if isHeaderStart stripped then
        match parseHeader stripped with
        | .error e => .error e
        | .ok (kind, name) =>
          match nextNonBlankIndent rest with
          | none => .error "syntax: expected an indented block"
          | some bi =>
            if bi ≤ ind then .error "syntax: expected an indented block"
            else
              let dr := takeDocstring bi rest
              match parseStmts fuel bi dr.2 with
              | .error e => .error e
              | .ok (children, rest2) =>
                let consumed := rest.take (rest.length - rest2.length)
                let code :=
                  intercalateNl (raw :: dropTrailingBlanks (consumed.map (·.2)))
                match parseStmts fuel ind rest2 with
                | .error e => .error e
                | .ok (siblings, rest3) =>
                  .ok (PyNode.mk kind name ln dr.1 code children :: siblings,
                       rest3)
      else if stripped.getLast? = some ':' then
        .error "syntax: compound statement outside modelled subset"
      else parseStmts fuel ind rest

/-- `ast.parse` on the modelled subset: split into lines and parse the
top-level statement sequence at indentation 0. -/
def pyParse (content : List Char) : Except String (List PyNode) :=
  let raws := splitLines content
  let numbered := raws.enum.map (fun p => (p.1 + 1, p.2))
  match parseStmts (raws.length + 1) 0 numbered with
  | .error e => .error e
  | .ok (nodes, []) => .ok nodes
  | .ok (_, _ :: _) => .error "internal: unconsumed input"

namespace CodeScanner

/-- `CodeScanner._parse_python` (scanner.py lines 101-122): `ast.parse`, then
collect every undocumented `def`/`async def`/`class` met by `ast.walk`.  A
parse failure propagates (there is no handler in `scanner.py`). -/
def parse_python (content : List Char) (path : String) :
    Except String FileAnalysis :=
  (pyParse content).map (fun body => analyzeTree body content path)

/-- `CodeScanner._parse_code` (scanner.py lines 89-99). -/
def parse_code (content : List Char) (path : String) :
    Except String FileAnalysis :=
  match languageOf path with
  | some "python" => parse_python content path
  | some "javascript" => .ok (parse_javascript content path "javascript")
  | some "typescript" => .ok (parse_javascript content path "typescript")
  | _ => .ok { path := path }

/-- `CodeScanner._analyze_file` (scanner.py lines 61-75) on the cache-miss
path (cache reads/writes are external I/O; per spec §4.4 a miss recomputes):
`None` for unsupported extensions, otherwise the analysis — or the
propagating parse error. -/
def analyze_file (path : String) (content : List Char) :
    Option (Except String FileAnalysis) :=
  if is_supported_file path then some (parse_code content path) else none

/-- A repository tree as `repo.get_contents` exposes it: files carry decoded
content (`_get_file_content` is external decoding). -/
inductive Entry where
  | file (path : String) (content : List Char)
  | dir (entries : List Entry)

mutual

/-- `CodeScanner.scan_repository` / `_process_directory` (scanner.py lines
36-59): walk the tree in order, recurse into directories, record an entry for
every file whose analysis is produced; an uncaught exception from
`_analyze_file` aborts the whole scan. -/
def scanEntries : List Entry → Except String (List (String × FileAnalysis))
  | [] => .ok []
  | e :: rest =>
    match scanEntry e with
    | .error msg => .error msg
    | .ok r1 =>
      match scanEntries rest with
      | .error msg => .error msg
      | .ok r2 => .ok (r1 ++ r2)

/-- Scan of a single tree entry. -/
def scanEntry : Entry → Except String (List (String × FileAnalysis))
  | Entry.file p c =>
    match analyze_file p c with
    | none => .ok []
    | some (.error e) => .error e
    | some (.ok a) => .ok [(p, a)]
  | Entry.dir es => scanEntries es

end

mutual

/-- The files of a repository tree, in traversal order (the order in which
`scan_repository` / `_process_directory` reach them). -/
def filesOfEntries : List Entry → List (String × List Char)
  | [] => []
  | e :: rest => filesOfEntry e ++ filesOfEntries rest

/-- The files under a single tree entry, in traversal order. -/
def filesOfEntry : Entry → List (String × List Char)
  | Entry.file p c => [(p, c)]
  | Entry.dir es => filesOfEntries es

end

end CodeScanner

/-! ## `DocumentationGenerator` (src/app/services/documenter.py)

The OpenAI call `_get_ai_response` is an external text-generation service.
The per-file handlers look the response up by `item['name']` (the prompts
dict built by `_build_python_prompts` et al. is keyed by name), so the
service is modelled as a function `responses : String → List Char` from the
item name to the generated text. -/

namespace DocumentationGenerator

/-- Python `str.replace(old, new)` for the one-character pattern `"\n"`. -/
def replaceNl (s repl : List Char) : List Char :=
  s.foldr (fun c acc => if c = '\n' then repl ++ acc else c :: acc) []

/-- The docstring block built by `_insert_python_docs`:
the triple-quoted block `indent + quotes + docs.strip() + newline + indent +
quotes`. -/
def pyDocBlock (indent docs : List Char) : List Char :=
  indent ++ ['\"', '\"', '\"'] ++ pyStrip docs ++
    '\n' :: (indent ++ ['\"', '\"', '\"'])

/-- `DocumentationGenerator._insert_python_docs` (documenter.py lines
133-140): take the indentation of the line at `item['line'] - 1`, build the
triple-quoted block `indent + quotes + docs.strip() + newline + indent +
quotes` and insert it after the declaration line.  The `IndexError` raised
when the line is out of range is modelled as `none`. -/
def insert_python_docs (code : List Char) (item : UndocumentedItem)
    (docs : List Char) : Option (List Char) :=
  let lines := splitLines code
  let insert_line := item.line - 1
  if h : insert_line < lines.length then
    let indent := List.replicate (indentWidth (lines.get ⟨insert_line, h⟩)) ' '
    some (intercalateNl (pyInsert (insert_line + 1) (pyDocBlock indent docs)
      lines))
  else none

/-- The JSDoc block built by `_insert_js_docs`:
`f'{indent}/**\n{indent} * {docs.strip().replace("\n", f"\n{indent} * ")}\n{indent} */'`. -/
def jsDocBlock (indent docs : List Char) : List Char :=
  indent ++ ['/', '*', '*'] ++
    '\n' :: (indent ++ [' ', '*', ' '] ++
      replaceNl (pyStrip docs) ('\n' :: (indent ++ [' ', '*', ' '])) ++
      '\n' :: (indent ++ [' ', '*', '/']))

/-- `DocumentationGenerator._insert_js_docs` (documenter.py lines 142-149):
insert the JSDoc block before the declaration line. -/
def insert_js_docs (code : List Char) (item : UndocumentedItem)
    (docs : List Char) : Option (List Char) :=
  let lines := splitLines code
  let insert_line := item.line - 1
  if h : insert_line < lines.length then
    let indent := List.replicate (indentWidth (lines.get ⟨insert_line, h⟩)) ' '
    some (intercalateNl (pyInsert insert_line (jsDocBlock indent docs) lines))
  else none

/-- `DocumentationGenerator._insert_ts_docs` (documenter.py lines 151-153):
delegates to `_insert_js_docs`. -/
def insert_ts_docs (code : List Char) (item : UndocumentedItem)
    (docs : List Char) : Option (List Char) :=
  insert_js_docs code item docs

/-- `DocumentationGenerator._handle_python` (documenter.py lines 25-34): fold
the insertion over `analysis.undocumented_items` in their stored order,
starting from `analysis.original_content`. -/
def handle_python (analysis : FileAnalysis) (responses : String → List Char) :
    Option (List Char) :=
  analysis.undocumented_items.foldlM
    (fun code item => insert_python_docs code item (responses item.name))
    analysis.original_content

/-- `DocumentationGenerator._handle_javascript` (documenter.py lines 36-45). -/
def handle_javascript (analysis : FileAnalysis)
    (responses : String → List Char) : Option (List Char) :=
  analysis.undocumented_items.foldlM
    (fun code item => insert_js_docs code item (responses item.name))
    analysis.original_content

/-- `DocumentationGenerator._handle_typescript` (documenter.py lines 47-56). -/
def handle_typescript (analysis : FileAnalysis)
    (responses : String → List Char) : Option (List Char) :=
  analysis.undocumented_items.foldlM
    (fun code item => insert_ts_docs code item (responses item.name))
    analysis.original_content

/-- `DocumentationGenerator.generate_documentation` (documenter.py lines
17-23): files that need no docs pass through; otherwise dispatch on
language, with a pass-through fallback (`_handle_generic`). -/
def generate_documentation (analysis : FileAnalysis)
    (responses : String → List Char) : Option (List Char) :=
  if analysis.needs_docs = false then some analysis.original_content
  else match analysis.language with
    | "python" => handle_python analysis responses
    | "javascript" => handle_javascript analysis responses
    | "typescript" => handle_typescript analysis responses
    | _ => some analysis.original_content

end DocumentationGenerator

/-- Follows the spec's words (claim C6), for comparison with the source's
`_has_jsdoc`: the nearest preceding run of non-blank lines, extending back to
the previous blank line or to the start of the file, contains a block comment
delimited by `/**` and `*/`. -/
def specNearestRunHasJsdoc (preceding : List Char) : Bool :=
  let run := ((splitLines preceding).reverse.takeWhile
    (fun l => !(isBlank l))).reverse
  containsJsdocPat (intercalateNl run)

deriving instance DecidableEq for Except

/-! ## Helper lemmas -/

theorem PyNode.sizeList_flat (ns : List PyNode)
    (h : ∀ n ∈ ns, n.body = []) : PyNode.sizeList ns = ns.length := by
  induction ns with
  | nil => rfl
  | cons n t ih =>
    have hn : n.body = [] := h n (List.mem_cons_self _ _)
    have ht := ih (fun m hm => h m (List.mem_cons_of_mem _ hm))
    cases n with
    | mk k nm l d c b =>
      simp only [PyNode.body] at hn
      subst hn
      simp [PyNode.sizeList, PyNode.size, ht]
      omega

theorem walkAux_flat : ∀ (fuel : Nat) (ns : List PyNode),
    (∀ n ∈ ns, n.body = []) → ns.length ≤ fuel → walkAux fuel ns = ns := by
  intro fuel
  induction fuel with
  | zero =>
    intro ns h hle
    cases ns with
    | nil => rfl
    | cons n t => simp at hle
  | succ f ih =>
    intro ns h hle
    cases ns with
    | nil => rfl
    | cons n t =>
      have hn : n.body = [] := h n (List.mem_cons_self _ _)
      simp only [walkAux, hn, List.append_nil]
      rw [ih t (fun m hm => h m (List.mem_cons_of_mem _ hm))]
      simpa using Nat.le_of_succ_le_succ (by simpa using hle)

/-- On a flat tree (no nested units) the breadth-first walk is the identity. -/
theorem walkList_flat (ns : List PyNode) (h : ∀ n ∈ ns, n.body = []) :
    walkList ns = ns := by
  rw [walkList, PyNode.sizeList_flat ns h]
  exact walkAux_flat _ ns h (Nat.le_refl _)

/-- A guarded `filterMap` image is a sublist of the corresponding `map`. -/
theorem filterMap_guard_map_sublist {α β γ : Type} (p : α → Bool) (g : α → β)
    (h : β → γ) (l : List α) :
    ((l.filterMap (fun a => if p a then none else some (g a))).map h).Sublist
      (l.map (fun a => h (g a))) := by
  induction l with
  | nil => simp
  | cons a t ih =>
    by_cases hp : p a
    · simp only [List.filterMap_cons, hp, ite_true, List.map_cons]
      exact ih.cons _
    · simp only [List.filterMap_cons, hp, ite_false, List.map_cons,
        Bool.false_eq_true]
      exact ih.cons₂ _

/-! ## Claims -/

open CodeScanner DocumentationGenerator

/-- C1: the spec mandates descending line-number insertion so that every
documentation block lands at the location given by the item's `line` in the
original content; `_handle_python` instead folds over `undocumented_items` in
stored (ascending-line) order and recomputes indentation against the already
modified text.  On a file with undocumented `f` (line 1) and `g` (line 3),
the block generated for `g` is inserted at line 3 of the *modified* content —
between the closing quotes of `f`'s block and `f`'s body — and the line
following `def g():` in the result is still `return 2`. -/
theorem claim1_ascending_insertion_misplaces_blocks :
    (parse_python "def f():\n    return 1\ndef g():\n    return 2".data
        "t.py").toOption.map
      (fun a => a.undocumented_items.map (fun i => (i.type, i.name, i.line)))
      = some [("function", "f", 1), ("function", "g", 3)]
    ∧ ((parse_python "def f():\n    return 1\ndef g():\n    return 2".data
          "t.py").toOption.bind
        (fun a => handle_python a
          (fun n => if n = "f" then "RF".data else "RG".data)))
      = some ("def f():\n\"\"\"RF\n\"\"\"\n\"\"\"RG\n\"\"\"\n"
              ++ "    return 1\ndef g():\n    return 2").data
    ∧ splitLines ("def f():\n\"\"\"RF\n\"\"\"\n\"\"\"RG\n\"\"\"\n"
              ++ "    return 1\ndef g():\n    return 2").data
      = ["def f():".data, "\"\"\"RF".data, "\"\"\"".data, "\"\"\"RG".data,
         "\"\"\"".data, "    return 1".data, "def g():".data,
         "    return 2".data] := by
  refine ⟨by decide, by decide, by decide⟩

/-- C2: on `def add(a, b):\n    return a + b\n` the analysis does yield the
single item `(function, add, 1)` and insertion does place a docstring block
immediately after line 1 with the return line unchanged — but the block is
indented with the *declaration* line's indentation (0 spaces), not the 4
spaces the claim states, because `_insert_python_docs` measures
`lines[item['line'] - 1]`, the `def` line itself. -/
theorem claim2_add_scenario_inserts_unindented_docstring :
    (parse_python "def add(a, b):\n    return a + b\n".data
        "example.py").toOption.map
      (fun a => a.undocumented_items.map (fun i => (i.type, i.name, i.line)))
      = some [("function", "add", 1)]
    ∧ ((parse_python "def add(a, b):\n    return a + b\n".data
          "example.py").toOption.bind
        (fun a => handle_python a (fun _ => "Adds two numbers.".data)))
      = some "def add(a, b):\n\"\"\"Adds two numbers.\n\"\"\"\n    return a + b".data := by
  refine ⟨by decide, by decide⟩

/-- C3: inserting the generated JSDoc for the sole undocumented unit of
`function foo() {}` and re-running extraction still reports `foo` as
undocumented: `_insert_js_docs` emits a multi-line `/** ... */` block, while
`_has_jsdoc` searches only the last non-blank preceding line (` */`), which
contains no `/**`. -/
theorem claim3_reextraction_still_reports_undocumented :
    (parse_javascript "function foo() {}".data "a.js"
        "javascript").undocumented_items.map (fun i => (i.name, i.line))
      = [("foo", 1)]
    ∧ handle_javascript
        (parse_javascript "function foo() {}".data "a.js" "javascript")
        (fun _ => "D".data)
      = some "/**\n * D\n */\nfunction foo() {}".data
    ∧ (parse_javascript "/**\n * D\n */\nfunction foo() {}".data "a.js"
        "javascript").undocumented_items.map (fun i => (i.name, i.line))
      = [("foo", 4)] := by
  refine ⟨by decide, by decide, by decide⟩

/-- C4 counterexample: `_parse_python` collects items in `ast.walk`
breadth-first order, not source declaration order.  For a class `C` (line 1)
with method `m` (line 2) followed by a top-level function `f` (line 4), the
items come out as `C, f, m` — the nested `m` after the later `f` — so their
line numbers `[1, 4, 2]` are not monotone, refuting document order. -/
theorem claim4_counterexample_walk_order :
    (parse_python
        "class C:\n    def m(self):\n        return 1\ndef f():\n    return 2".data
        "t.py").toOption.map
      (fun a => a.undocumented_items.map (fun i => (i.name, i.line)))
      = some [("C", 1), ("f", 4), ("m", 2)]
    ∧ (parse_python
          "class C:\n    def m(self):\n        return 1\ndef f():\n    return 2".data
          "t.py").toOption.map
        (fun a => decide (List.Pairwise (fun x y => x ≤ y)
          (a.undocumented_items.map (fun i => i.line))))
      = some false := by
  refine ⟨by decide, by decide⟩

/-- C4 amended: `undocumented_items` follows `ast.walk`'s breadth-first
order.  For a file whose units are all top-level (no nested units) that
order coincides with source declaration order: the items are exactly the
source-order filter of the undocumented units, and their line numbers are
monotone whenever the declarations' are. -/
theorem claim4_amended_flat_files_in_source_order (body : List PyNode)
    (content : List Char) (path : String)
    (hflat : ∀ n ∈ body, n.body = []) :
    (analyzeTree body content path).undocumented_items
      = body.filterMap
          (fun n => if has_proper_docs n then none else some (itemOfNode n))
    ∧ (List.Pairwise (fun a b => a.lineno ≤ b.lineno) body →
       List.Pairwise (fun a b => a ≤ b)
         ((analyzeTree body content path).undocumented_items.map
           (fun i => i.line))) := by
  have hw : walkList body = body := walkList_flat body hflat
  constructor
  · simp [analyzeTree, hw]
  · intro hp
    have hsub :
        (((body.filterMap (fun n => if has_proper_docs n then none
            else some (itemOfNode n))).map (fun i => i.line))).Sublist
          (body.map (fun n => (itemOfNode n).line)) :=
      filterMap_guard_map_sublist has_proper_docs itemOfNode (fun i => i.line)
        body
    have hmono : List.Pairwise (fun a b => a ≤ b)
        (body.map (fun n => (itemOfNode n).line)) := by
      rw [List.pairwise_map]
      exact hp.imp (fun hab => hab)
    simpa [analyzeTree, hw] using hmono.sublist hsub

/-- Witness for C4 amended at a concrete flat file: two top-level
undocumented functions at lines 1 and 3 come out with monotone line
numbers. -/
theorem claim4_amended_witness :
    List.Pairwise (fun a b => a ≤ b)
      ((analyzeTree
          [PyNode.mk .functionDef "a" 1 none [] [],
           PyNode.mk .functionDef "b" 3 none [] []]
          "def a():\n    pass1\ndef b():\n    pass1\n".data
          "w.py").undocumented_items.map (fun i => i.line)) :=
  (claim4_amended_flat_files_in_source_order
      [PyNode.mk .functionDef "a" 1 none [] [],
       PyNode.mk .functionDef "b" 3 none [] []]
      "def a():\n    pass1\ndef b():\n    pass1\n".data
      "w.py"
      (by
        intro n hn
        simp only [List.mem_cons, List.not_mem_nil, or_false] at hn
        rcases hn with rfl | rfl <;> rfl)).2
    (by
      constructor
      · intro a ha
        rcases List.mem_singleton.mp ha with rfl
        decide
      · constructor
        · intro a ha
          cases ha
        · exact List.Pairwise.nil)

/-- A path the language table maps is a supported path. -/
theorem is_supported_of_languageOf {p l : String}
    (h : languageOf p = some l) : is_supported_file p = true := by
  unfold languageOf supported_languages at h
  unfold is_supported_file supported_languages
  cases hd1 : decide (['.', 'p', 'y'] = extOf p) <;>
  cases hd2 : decide (['.', 'j', 's'] = extOf p) <;>
  cases hd3 : decide (['.', 't', 's'] = extOf p) <;>
  cases hd4 : decide (['.', 'j', 's', 'x'] = extOf p) <;>
  cases hd5 : decide (['.', 't', 's', 'x'] = extOf p) <;>
    simp_all [List.find?, List.any]

/-- C5 counterexample: a malformed Python file does not merely drop out of the
scan — the parse error propagates through `_analyze_file` and
`scan_repository` (neither has a handler) and aborts the whole scan, so the
well-formed `good.py` that follows produces no result either. -/
theorem claim5_counterexample_scan_aborts :
    scanEntries [Entry.file "bad.py" "def f(:".data,
                 Entry.file "good.py" "x = 1".data]
      = .error "syntax: unclosed parenthesis" := by decide

mutual

/-- A tree list containing a malformed supported Python file anywhere makes
the whole scan return an error. -/
theorem scanEntries_error_of_bad_file : ∀ (es : List Entry) (p : String)
    (c : List Char) (e : String), (p, c) ∈ filesOfEntries es →
    languageOf p = some "python" → pyParse c = .error e →
    ∃ msg, scanEntries es = .error msg
  | [], p, c, e, hfile, _, _ => by
    simp [filesOfEntries] at hfile
  | ehead :: rest, p, c, e, hfile, hlang, herr => by
    simp only [filesOfEntries] at hfile
    rcases List.mem_append.mp hfile with hm | hm
    · rcases scanEntry_error_of_bad_file ehead p c e hm hlang herr with
        ⟨msg, hmsg⟩
      exact ⟨msg, by simp only [scanEntries, hmsg]⟩
    · cases h1 : scanEntry ehead with
      | error m => exact ⟨m, by simp only [scanEntries, h1]⟩
      | ok r1 =>
        rcases scanEntries_error_of_bad_file rest p c e hm hlang herr with
          ⟨msg, hmsg⟩
        exact ⟨msg, by simp only [scanEntries, h1, hmsg]⟩

/-- A tree entry containing a malformed supported Python file anywhere makes
its scan return an error. -/
theorem scanEntry_error_of_bad_file : ∀ (en : Entry) (p : String)
    (c : List Char) (e : String), (p, c) ∈ filesOfEntry en →
    languageOf p = some "python" → pyParse c = .error e →
    ∃ msg, scanEntry en = .error msg
  | Entry.file p2 c2, p, c, e, hfile, hlang, herr => by
    simp only [filesOfEntry, List.mem_singleton, Prod.mk.injEq] at hfile
    obtain ⟨rfl, rfl⟩ := hfile
    have hsup : is_supported_file p = true := is_supported_of_languageOf hlang
    exact ⟨e, by simp [scanEntry, analyze_file, hsup, parse_code, hlang,
      parse_python, herr, Except.map]⟩
  | Entry.dir es, p, c, e, hfile, hlang, herr => by
    simp only [filesOfEntry] at hfile
    rcases scanEntries_error_of_bad_file es p c e hfile hlang herr with
      ⟨msg, hmsg⟩
    exact ⟨msg, by simp only [scanEntry, hmsg]⟩

end

/-- C5 amended: a Python parse failure is reported to the caller, but as an
uncaught exception that aborts the entire repository scan: whenever the
scanned tree contains a `.py` file whose content fails to parse — at any
position, preceded by other files or nested inside directories — the scan
returns a parse error and produces no per-file results at all; it does not
continue for the other files. -/
theorem claim5_amended_parse_error_aborts_scan (es : List Entry) (p : String)
    (c : List Char) (e : String)
    (hfile : (p, c) ∈ filesOfEntries es)
    (hlang : languageOf p = some "python")
    (herr : pyParse c = .error e) :
    ∃ msg, scanEntries es = .error msg :=
  scanEntries_error_of_bad_file es p c e hfile hlang herr

/-- Witness for C5 amended at a concrete repository in which the malformed
`bad.py` is nested inside a directory and preceded by two well-formed files:
the whole scan still returns an error, with no result for any file. -/
theorem claim5_amended_witness :
    ∃ msg, scanEntries
      [Entry.file "ok.py" "x = 1".data,
       Entry.dir [Entry.file "lib.js" "function a() {}".data,
                  Entry.file "bad.py" "def f(:".data]]
      = .error msg :=
  claim5_amended_parse_error_aborts_scan
    [Entry.file "ok.py" "x = 1".data,
     Entry.dir [Entry.file "lib.js" "function a() {}".data,
                Entry.file "bad.py" "def f(:".data]]
    "bad.py" "def f(:".data "syntax: unclosed parenthesis"
    (by decide) (by decide) (by rfl)

/-- The pattern `/\*\*.*?\*/` never matches inside a run of spaces followed
by ` */`. -/
theorem containsJsdocPat_spaces_tail (n : Nat) :
    containsJsdocPat (List.replicate n ' ' ++ [' ', '*', '/']) = false := by
  induction n with
  | zero => decide
  | succ m ih =>
    rw [List.replicate_succ, List.cons_append]
    simp [containsJsdocPat, List.isPrefixOf, ih,
      (by decide : (('/' : Char) == ' ') = false)]

theorem reverse_append_nl (x y : List Char) :
    (x ++ '\n' :: y).reverse = y.reverse ++ '\n' :: x.reverse := by
  simp

/-- `takeWhile (≠ newline)` stops exactly at the newline after a space run. -/
theorem takeWhile_spaces_nl (n : Nat) (z : List Char) :
    List.takeWhile (fun c => decide (c ≠ '\n'))
        (List.replicate n ' ' ++ '\n' :: z)
      = List.replicate n ' ' := by
  induction n with
  | zero => simp [List.takeWhile]
  | succ m ih =>
    rw [List.replicate_succ, List.cons_append]
    simp [List.takeWhile_cons, ih]

/-- C6 counterexample: a multi-line `/** ... */` immediately preceding a
declaration is in the nearest preceding non-blank run (so the claim says the
unit has documentation), yet `_has_jsdoc` returns `False` — it searches only
the last non-blank line, ` */` — and extraction reports `foo` as
undocumented. -/
theorem claim6_counterexample_multiline_jsdoc :
    specNearestRunHasJsdoc "/**\n * doc\n */\n".data = true
    ∧ has_jsdoc "/**\n * doc\n */\n".data = false
    ∧ (parse_javascript "/**\n * doc\n */\nfunction foo() {}".data "a.js"
        "javascript").undocumented_items.map (fun i => (i.name, i.line))
      = [("foo", 4)] := by
  refine ⟨by decide, by decide, by decide⟩

/-- `_has_jsdoc` is `false` whenever the preceding text ends, after its last
newline, in spaces followed by ` */`. -/
theorem has_jsdoc_last_line_spaces (x : List Char) (n : Nat) (r : List Char)
    (hx : x.reverse
      = '/' :: '*' :: ' ' :: (List.replicate n ' ' ++ '\n' :: r)) :
    has_jsdoc x = false := by
  unfold has_jsdoc pyRStrip
  rw [hx]
  rw [List.dropWhile_cons_of_neg (by decide)]
  rw [if_neg (by simp)]
  rw [List.reverse_reverse]
  rw [List.takeWhile_cons_of_pos (by decide),
      List.takeWhile_cons_of_pos (by decide),
      List.takeWhile_cons_of_pos (by decide), takeWhile_spaces_nl]
  have hrev : (('/' : Char) :: '*' :: ' ' :: List.replicate n ' ').reverse
      = List.replicate n ' ' ++ [' ', '*', '/'] := by
    simp
  rw [hrev]
  exact containsJsdocPat_spaces_tail n

/-- C6 amended: `_has_jsdoc` examines only the text after the last newline of
the right-stripped preceding content, so a multi-line JSDoc block — in
particular any block `_insert_js_docs` builds, whose last line is
`indent + " */"` — never counts as documentation, whatever content precedes
it and whatever the generated text is.  Only a comment whose `/**` and `*/`
both sit on that one last line can count. -/
theorem claim6_amended_multiline_jsdoc_never_counts (p docs : List Char)
    (n : Nat) :
    has_jsdoc (p ++ jsDocBlock (List.replicate n ' ') docs) = false :=
  has_jsdoc_last_line_spaces _ n
    ((replaceNl (pyStrip docs)
        ('\n' :: (List.replicate n ' ' ++ [' ', '*', ' ']))).reverse ++
      ' ' :: '*' :: ' ' :: (List.replicate n ' ' ++
        '\n' :: '*' :: '*' :: '/' :: (List.replicate n ' ' ++ p.reverse)))
    (by simp [jsDocBlock])

/-- C7: a Python unit counts as properly documented iff it has an attached
docstring whose trimmed length exceeds 10 characters; consequently every
walked unit whose docstring is absent or has trimmed length at most 10
(including exactly 10) is classified undocumented and lands in
`undocumented_items`, and a unit with trimmed length 11 or more is classified
documented. -/
theorem claim7_docstring_boundary (body : List PyNode) (content : List Char)
    (path : String) (n : PyNode) (hmem : n ∈ walkList body) :
    ((∀ d, n.docstring = some d → (pyStrip d).length ≤ 10) →
      itemOfNode n ∈ (analyzeTree body content path).undocumented_items)
    ∧ (has_proper_docs n = true ↔
        ∃ d, n.docstring = some d ∧ 10 < (pyStrip d).length) := by
  have hitems : (analyzeTree body content path).undocumented_items
      = (walkList body).filterMap
          (fun m => if has_proper_docs m then none else some (itemOfNode m)) :=
    rfl
  constructor
  · intro hshort
    have hfalse : has_proper_docs n = false := by
      unfold has_proper_docs
      cases hd : n.docstring with
      | none => rfl
      | some d =>
        have hle := hshort d hd
        simp only [decide_eq_false_iff_not]
        omega
    rw [hitems]
    exact List.mem_filterMap.mpr ⟨n, hmem, by rw [hfalse]; simp⟩
  · constructor
    · intro h
      unfold has_proper_docs at h
      cases hd : n.docstring with
      | none => rw [hd] at h; cases h
      | some d =>
        rw [hd] at h
        exact ⟨d, rfl, by simpa using h⟩
    · rintro ⟨d, hd, hlen⟩
      unfold has_proper_docs
      rw [hd]
      simpa using hlen

/-- Witness for C7 at the boundary: a function whose docstring has trimmed
length exactly 10 is reported in `undocumented_items`. -/
theorem claim7_witness :
    itemOfNode
        (PyNode.mk .functionDef "short" 1 (some "exactly10!".data) [] [])
      ∈ (analyzeTree
          [PyNode.mk .functionDef "short" 1 (some "exactly10!".data) [] []]
          "def short():\n    pass1\n".data "w.py").undocumented_items :=
  (claim7_docstring_boundary
      [PyNode.mk .functionDef "short" 1 (some "exactly10!".data) [] []]
      "def short():\n    pass1\n".data "w.py"
      (PyNode.mk .functionDef "short" 1 (some "exactly10!".data) [] [])
      (List.mem_singleton_self _)).1
    (by
      intro d hd
      injection hd with h
      subst h
      decide)

/-! ### Lemmas on the line split and join -/

theorem splitOnNl_cons_nl (rest : List Char) :
    splitOnNl ('\n' :: rest) = [] :: splitOnNl rest := by
  simp [splitOnNl]

theorem splitOnNl_ne_nil (l : List Char) : splitOnNl l ≠ [] := by
  cases l with
  | nil => simp [splitOnNl]
  | cons c rest =>
    unfold splitOnNl
    by_cases hc : c = '\n'
    · simp [hc]
    · simp only [hc, if_false]
      cases h : splitOnNl rest <;> simp

theorem splitOnNl_cons_ne (c : Char) (rest : List Char) (hc : c ≠ '\n')
    (h₀ : List Char) (t₀ : List (List Char)) (h : splitOnNl rest = h₀ :: t₀) :
    splitOnNl (c :: rest) = (c :: h₀) :: t₀ := by
  simp [splitOnNl, hc, h]

theorem splitOnNl_append_nl (a b : List Char) :
    splitOnNl (a ++ '\n' :: b) = splitOnNl a ++ splitOnNl b := by
  induction a with
  | nil => simp [splitOnNl_cons_nl, splitOnNl]
  | cons c t ih =>
    by_cases hc : c = '\n'
    · subst hc
      rw [List.cons_append, splitOnNl_cons_nl, splitOnNl_cons_nl, ih,
        List.cons_append]
    · rcases h : splitOnNl t with _ | ⟨h₀, t₀⟩
      · exact absurd h (splitOnNl_ne_nil t)
      · rw [List.cons_append,
          splitOnNl_cons_ne c (t ++ '\n' :: b) hc h₀ (t₀ ++ splitOnNl b)
            (by rw [ih, h]; rfl),
          splitOnNl_cons_ne c t hc h₀ t₀ h]
        rfl

theorem splitOnNl_no_nl (l : List Char) (h : '\n' ∉ l) : splitOnNl l = [l] := by
  induction l with
  | nil => rfl
  | cons c t ih =>
    have hc : c ≠ '\n' := by
      intro hh
      exact h (hh ▸ List.mem_cons_self c t)
    have ht : '\n' ∉ t := fun hh => h (List.mem_cons_of_mem c hh)
    rw [splitOnNl_cons_ne c t hc t [] (ih ht)]

theorem no_nl_of_mem_splitOnNl (l : List Char) :
    ∀ p ∈ splitOnNl l, '\n' ∉ p := by
  induction l with
  | nil =>
    intro p hp
    simp only [splitOnNl, List.mem_singleton] at hp
    simp [hp]
  | cons c t ih =>
    intro p hp
    by_cases hc : c = '\n'
    · subst hc
      rw [splitOnNl_cons_nl] at hp
      rcases List.mem_cons.mp hp with rfl | hp2
      · simp
      · exact ih p hp2
    · rcases h : splitOnNl t with _ | ⟨h₀, t₀⟩
      · exact absurd h (splitOnNl_ne_nil t)
      · rw [splitOnNl_cons_ne c t hc h₀ t₀ h] at hp
        rcases List.mem_cons.mp hp with rfl | hp2
        · intro hmem
          rcases List.mem_cons.mp hmem with heq | hmem2
          · exact hc heq.symm
          · exact ih h₀ (by rw [h]; exact List.mem_cons_self _ _) hmem2
        · exact ih p (by rw [h]; exact List.mem_cons_of_mem _ hp2)

theorem no_nl_of_mem_splitLines (s : List Char) (p : List Char)
    (hp : p ∈ splitLines s) : '\n' ∉ p := by
  unfold splitLines at hp
  by_cases hl : (splitOnNl s).getLast? = some []
  · rw [if_pos hl] at hp
    exact no_nl_of_mem_splitOnNl s p ((List.dropLast_sublist _).subset hp)
  · rw [if_neg hl] at hp
    exact no_nl_of_mem_splitOnNl s p hp

theorem intercalateNl_cons_cons (x y : List Char) (t : List (List Char)) :
    intercalateNl (x :: y :: t) = x ++ '\n' :: intercalateNl (y :: t) := rfl

theorem intercalateNl_cons (x : List Char) (ys : List (List Char))
    (hy : ys ≠ []) :
    intercalateNl (x :: ys) = x ++ '\n' :: intercalateNl ys := by
  cases ys with
  | nil => exact absurd rfl hy
  | cons y t => rfl

theorem intercalateNl_append (xs ys : List (List Char)) (hx : xs ≠ [])
    (hy : ys ≠ []) :
    intercalateNl (xs ++ ys)
      = intercalateNl xs ++ '\n' :: intercalateNl ys := by
  induction xs with
  | nil => exact absurd rfl hx
  | cons x t ih =>
    cases t with
    | nil =>
      cases ys with
      | nil => exact absurd rfl hy
      | cons y ty => rfl
    | cons x2 t2 =>
      have htail := ih (by simp)
      rw [List.cons_append] at htail
      rw [List.cons_append, List.cons_append, intercalateNl_cons_cons, htail,
        intercalateNl_cons_cons]
      simp

theorem splitOnNl_intercalateNl_flat (L : List (List Char)) (hL : L ≠ [])
    (h : ∀ p ∈ L, '\n' ∉ p) : splitOnNl (intercalateNl L) = L := by
  induction L with
  | nil => exact absurd rfl hL
  | cons x t ih =>
    cases t with
    | nil =>
      show splitOnNl x = [x]
      exact splitOnNl_no_nl x (h x (List.mem_cons_self _ _))
    | cons y t2 =>
      rw [intercalateNl_cons_cons, splitOnNl_append_nl,
        splitOnNl_no_nl x (h x (List.mem_cons_self _ _)),
        ih (by simp) (fun p hp => h p (List.mem_cons_of_mem _ hp))]
      rfl

/-- Splitting after inserting a block `D` at position `k` of the line list
`L` recovers the original lines around the split of `D`. -/
theorem splitOnNl_intercalateNl_pyInsert (L : List (List Char)) (D : List Char)
    (k : Nat) (hL : L ≠ []) (hk : k ≤ L.length)
    (hflat : ∀ p ∈ L, '\n' ∉ p) :
    splitOnNl (intercalateNl (pyInsert k D L))
      = L.take k ++ splitOnNl D ++ L.drop k := by
  have htk : ∀ p ∈ L.take k, '\n' ∉ p :=
    fun p hp => hflat p (List.take_subset k L hp)
  have hdr : ∀ p ∈ L.drop k, '\n' ∉ p :=
    fun p hp => hflat p (List.drop_subset k L hp)
  unfold pyInsert
  by_cases hA : L.take k = []
  · -- `k = 0`: the block is prepended
    have hB : L.drop k ≠ [] := by
      rcases List.take_eq_nil_iff.mp hA with h0 | h0
      · subst h0
        simpa using hL
      · exact absurd h0 hL
    rw [hA, List.nil_append, List.nil_append,
      intercalateNl_cons D (L.drop k) hB,
      splitOnNl_append_nl, splitOnNl_intercalateNl_flat (L.drop k) hB hdr]
  · by_cases hB : L.drop k = []
    · -- `k = L.length`: the block is appended
      rw [hB, intercalateNl_append (L.take k) [D] hA (by simp),
        splitOnNl_append_nl, splitOnNl_intercalateNl_flat (L.take k) hA htk]
      simp [intercalateNl]
    · -- interior insertion
      rw [intercalateNl_append (L.take k) (D :: L.drop k) hA (by simp),
        intercalateNl_cons D (L.drop k) hB,
        splitOnNl_append_nl, splitOnNl_append_nl,
        splitOnNl_intercalateNl_flat (L.take k) hA htk,
        splitOnNl_intercalateNl_flat (L.drop k) hB hdr]
      simp

/-- The last piece of the split of a list ending in a non-newline character
is nonempty. -/
theorem splitOnNl_getLast_ne_empty (D : List Char)
    (h : D.getLast? ≠ some '\n') (hD : D ≠ []) :
    (splitOnNl D).getLast? ≠ some [] := by
  induction D with
  | nil => exact absurd rfl hD
  | cons c t ih =>
    cases t with
    | nil =>
      have hc : c ≠ '\n' := by
        intro hc
        exact h (by simp [hc, List.getLast?])
      rw [splitOnNl_cons_ne c [] hc [] [] rfl]
      simp [List.getLast?]
    | cons d t2 =>
      rw [List.getLast?_cons_cons] at h
      have ihh := ih h (by simp)
      rcases hsp : splitOnNl (d :: t2) with _ | ⟨h₀, t₀⟩
      · exact absurd hsp (splitOnNl_ne_nil _)
      rw [hsp] at ihh
      by_cases hc : c = '\n'
      · subst hc
        rw [splitOnNl_cons_nl, hsp, List.getLast?_cons_cons]
        exact ihh
      · rw [splitOnNl_cons_ne c (d :: t2) hc h₀ t₀ hsp]
        cases t₀ with
        | nil =>
          simp [List.getLast?]
        | cons e t3 =>
          rw [List.getLast?_cons_cons] at ihh ⊢
          exact ihh

theorem getLast?_drop_of_ne_nil {α : Type} (L : List α) (k : Nat)
    (h : L.drop k ≠ []) : (L.drop k).getLast? = L.getLast? := by
  conv_rhs => rw [← List.take_append_drop k L]
  rw [List.getLast?_append_of_ne_nil _ h]

/-- Applying `splitLines` to the join of a line list with a block inserted at
an in-bounds position recovers the original lines around the block's split,
provided the combined list does not end in an empty line. -/
theorem splitLines_intercalateNl_pyInsert (L : List (List Char))
    (D : List Char) (k : Nat) (hLne : L ≠ []) (hk : k ≤ L.length)
    (hflat : ∀ p ∈ L, '\n' ∉ p)
    (hlast : (L.take k ++ splitOnNl D ++ L.drop k).getLast? ≠ some []) :
    splitLines (intercalateNl (pyInsert k D L))
      = L.take k ++ splitOnNl D ++ L.drop k := by
  unfold splitLines
  rw [splitOnNl_intercalateNl_pyInsert L D k hLne hk hflat, if_neg hlast]

theorem last_cond_of_drop_ne_nil (L : List (List Char)) (D : List Char)
    (k : Nat) (hB : L.drop k ≠ []) (h3 : L.getLast? ≠ some []) :
    (L.take k ++ splitOnNl D ++ L.drop k).getLast? ≠ some [] := by
  rw [List.getLast?_append_of_ne_nil _ hB, getLast?_drop_of_ne_nil _ _ hB]
  exact h3

theorem last_cond_of_drop_nil (L : List (List Char)) (D : List Char)
    (k : Nat) (hB : L.drop k = [])
    (hD : (splitOnNl D).getLast? ≠ some []) :
    (L.take k ++ splitOnNl D ++ L.drop k).getLast? ≠ some [] := by
  rw [hB, List.append_nil,
    List.getLast?_append_of_ne_nil _ (splitOnNl_ne_nil D)]
  exact hD

theorem pyDocBlock_getLast (ind docs : List Char) :
    (pyDocBlock ind docs).getLast? = some '\"' := by
  unfold pyDocBlock
  rw [show ind ++ ['\"', '\"', '\"'] ++ pyStrip docs ++
      '\n' :: (ind ++ ['\"', '\"', '\"'])
      = (ind ++ ['\"', '\"', '\"'] ++ pyStrip docs ++
        '\n' :: (ind ++ ['\"', '\"'])) ++ ['\"'] from by simp]
  exact List.getLast?_concat _

theorem pyDocBlock_ne_nil (ind docs : List Char) : pyDocBlock ind docs ≠ [] := by
  simp [pyDocBlock]

/-- C8 counterexample: when the original content's final line is empty (the
content ends in two newlines), the joined result swallows that empty line.
For `"a\n\n"` (lines `a`, ``) and an insertion at line 1, the original has
one empty line but the rewritten content has none: a line of the original
outside the inserted block is not preserved. -/
theorem claim8_counterexample_trailing_empty_line :
    insert_python_docs "a\n\n".data
        { type := "function", name := "x", line := 1, code := [] } "X".data
      = some "a\n\"\"\"X\n\"\"\"\n".data
    ∧ (splitLines "a\n\n".data).count [] = 1
    ∧ (splitLines "a\n\"\"\"X\n\"\"\"\n".data).count [] = 0 := by
  refine ⟨by decide, by decide, by decide⟩

/-- C8 amended: for every original content whose final line is nonempty,
every item whose `line` is in bounds and every generated text, both insertion
operations preserve all lines of the original outside the inserted
documentation block, in their original relative order: the lines of the
result are exactly the original lines before the insertion point, then the
block's lines, then the remaining original lines (the block goes after line
`line` for Python, before it for JS/TS). -/
theorem claim8_amended_insertion_preserves_lines (code : List Char)
    (item : UndocumentedItem) (docs : List Char)
    (h1 : 1 ≤ item.line) (h2 : item.line ≤ (splitLines code).length)
    (h3 : (splitLines code).getLast? ≠ some []) :
    (∃ r dl, insert_python_docs code item docs = some r
      ∧ splitLines r = (splitLines code).take item.line ++ dl
          ++ (splitLines code).drop item.line)
    ∧ (∃ r dl, insert_js_docs code item docs = some r
      ∧ splitLines r = (splitLines code).take (item.line - 1) ++ dl
          ++ (splitLines code).drop (item.line - 1)) := by
  have hflat : ∀ p ∈ splitLines code, '\n' ∉ p :=
    fun p hp => no_nl_of_mem_splitLines code p hp
  have hLne : splitLines code ≠ [] := by
    intro h0
    rw [h0] at h2
    simp at h2
    omega
  have hidx : item.line - 1 < (splitLines code).length := by omega
  have hline : item.line - 1 + 1 = item.line := by omega
  constructor
  · -- Python: the block goes after the declaration line
    have hlast : ∀ D,
        ((splitLines code).take item.line ++ splitOnNl (pyDocBlock D docs)
          ++ (splitLines code).drop item.line).getLast? ≠ some [] := by
      intro D
      by_cases hB : (splitLines code).drop item.line = []
      · refine last_cond_of_drop_nil _ _ _ hB ?_
        refine splitOnNl_getLast_ne_empty _ ?_ (pyDocBlock_ne_nil D docs)
        rw [pyDocBlock_getLast]
        simp
      · exact last_cond_of_drop_ne_nil _ _ _ hB h3
    have key : splitLines (intercalateNl (pyInsert (item.line - 1 + 1)
        (pyDocBlock (List.replicate (indentWidth ((splitLines code).get
          ⟨item.line - 1, hidx⟩)) ' ') docs) (splitLines code)))
        = (splitLines code).take item.line
          ++ splitOnNl (pyDocBlock (List.replicate
              (indentWidth ((splitLines code).get ⟨item.line - 1, hidx⟩)) ' ')
              docs)
          ++ (splitLines code).drop item.line := by
      rw [hline]
      exact splitLines_intercalateNl_pyInsert _ _ _ hLne h2 hflat (hlast _)
    unfold insert_python_docs
    rw [dif_pos hidx]
    exact ⟨_, _, rfl, key⟩
  · -- JS/TS: the block goes before the declaration line
    have hB : (splitLines code).drop (item.line - 1) ≠ [] := by
      intro h0
      have := List.drop_eq_nil_iff.mp h0
      omega
    have key : splitLines (intercalateNl (pyInsert (item.line - 1)
        (jsDocBlock (List.replicate (indentWidth ((splitLines code).get
          ⟨item.line - 1, hidx⟩)) ' ') docs) (splitLines code)))
        = (splitLines code).take (item.line - 1)
          ++ splitOnNl (jsDocBlock (List.replicate
              (indentWidth ((splitLines code).get ⟨item.line - 1, hidx⟩)) ' ')
              docs)
          ++ (splitLines code).drop (item.line - 1) :=
      splitLines_intercalateNl_pyInsert _ _ _ hLne (by omega) hflat
        (last_cond_of_drop_ne_nil _ _ _ hB h3)
    unfold insert_js_docs
    rw [dif_pos hidx]
    exact ⟨_, _, rfl, key⟩

/-- Witness for C8 amended on the two-line content `a`/`b` with an item at
line 1: both insertions keep line `a` before the block and line `b` after
it. -/
theorem claim8_amended_witness :
    (∃ r dl, insert_python_docs "a\nb".data
        { type := "function", name := "x", line := 1, code := [] } "X".data
        = some r
      ∧ splitLines r = (splitLines "a\nb".data).take 1 ++ dl
          ++ (splitLines "a\nb".data).drop 1)
    ∧ (∃ r dl, insert_js_docs "a\nb".data
        { type := "function", name := "x", line := 1, code := [] } "X".data
        = some r
      ∧ splitLines r = (splitLines "a\nb".data).take 0 ++ dl
          ++ (splitLines "a\nb".data).drop 0) :=
  claim8_amended_insertion_preserves_lines "a\nb".data
    { type := "function", name := "x", line := 1, code := [] } "X".data
    (by decide) (by decide) (by decide)

mutual

/-- Every path recorded by a scan passed the `_is_supported_file` gate. -/
theorem scanEntries_supported : ∀ (es : List Entry)
    (m : List (String × FileAnalysis)), scanEntries es = .ok m →
    ∀ p a, (p, a) ∈ m → is_supported_file p = true
  | [], m, hok, p, a, hmem => by
    simp only [scanEntries] at hok
    cases hok
    cases hmem
  | e :: rest, m, hok, p, a, hmem => by
    simp only [scanEntries] at hok
    cases h1 : scanEntry e with
    | error msg => rw [h1] at hok; cases hok
    | ok r1 =>
      rw [h1] at hok
      cases h2 : scanEntries rest with
      | error msg => rw [h2] at hok; cases hok
      | ok r2 =>
        rw [h2] at hok
        cases hok
        rcases List.mem_append.mp hmem with hm | hm
        · exact scanEntry_supported e r1 h1 p a hm
        · exact scanEntries_supported rest r2 h2 p a hm

/-- Every path recorded by scanning one entry passed the gate. -/
theorem scanEntry_supported : ∀ (e : Entry)
    (m : List (String × FileAnalysis)), scanEntry e = .ok m →
    ∀ p a, (p, a) ∈ m → is_supported_file p = true
  | Entry.file pth c, m, hok, p, a, hmem => by
    simp only [scanEntry, analyze_file] at hok
    by_cases hs : is_supported_file pth
    · rw [if_pos hs] at hok
      cases hr : parse_code c pth with
      | error msg => rw [hr] at hok; cases hok
      | ok a2 =>
        rw [hr] at hok
        cases hok
        rcases List.mem_singleton.mp hmem with heq
        cases heq
        exact hs
    · rw [if_neg hs] at hok
      cases hok
      cases hmem
  | Entry.dir es, m, hok, p, a, hmem =>
    scanEntries_supported es m (by simpa only [scanEntry] using hok) p a hmem

end

/-- The analysis the scan records for the one-statement file `a.py` in the
C9 scenario tree. -/
def mdPyScenarioAnalysis : FileAnalysis :=
  { path := "a.py", language := "python", needs_docs := false,
    original_content := "x = 1".data, undocumented_items := [] }

/-- C9: the scan's result mapping contains entries only for files whose
extension passes `_is_supported_file` (lower-cased suffix in
`.py`/`.js`/`.jsx`/`.ts`/`.tsx`); unsupported files are omitted entirely.
In particular a tree with one `.md` file and one `.py` file yields a map
with only the `.py` entry. -/
theorem claim9_unsupported_files_omitted :
    (∀ (es : List Entry) (m : List (String × FileAnalysis)) (p : String)
        (a : FileAnalysis), scanEntries es = .ok m → (p, a) ∈ m →
        is_supported_file p = true)
    ∧ scanEntries [Entry.dir [Entry.file "README.md" "# hi".data,
        Entry.file "a.py" "x = 1".data]]
      = .ok [("a.py", mdPyScenarioAnalysis)] := by
  constructor
  · intro es m p a hok hmem
    exact scanEntries_supported es m hok p a hmem
  · decide

/-- Witness for C9 applied at the concrete scenario tree: the `.py` entry the
scan records is indeed a supported path. -/
theorem claim9_witness : is_supported_file "a.py" = true :=
  claim9_unsupported_files_omitted.1
    [Entry.dir [Entry.file "README.md" "# hi".data,
      Entry.file "a.py" "x = 1".data]]
    [("a.py", mdPyScenarioAnalysis)] "a.py" mdPyScenarioAnalysis
    (by decide) (by decide)

/-- C10: `_parse_javascript` hard-codes `'type': 'function'` for every match
of `js_function_pattern`, so every JS/TS item has type `function` — even when
the matched declaration is a `class` (the pattern's third alternative); the
`class` kind is never emitted for these languages. -/
theorem claim10_js_items_always_function (content : List Char)
    (path lang : String) (item : UndocumentedItem)
    (hmem : item ∈ (parse_javascript content path lang).undocumented_items) :
    item.type = "function" := by
  have hitems : (parse_javascript content path lang).undocumented_items
      = (findIter content 0).filterMap (fun m =>
          if has_jsdoc (content.take m.1) then none
          else some { type := "function", name := m.2.1,
                      line := (content.take m.1).count '\n' + 1,
                      code := m.2.2 }) := rfl
  rw [hitems] at hmem
  rcases List.mem_filterMap.mp hmem with ⟨mm, _, hpred⟩
  by_cases h : has_jsdoc (content.take mm.1)
  · rw [if_pos h] at hpred
    cases hpred
  · rw [if_neg h] at hpred
    cases hpred
    rfl

/-- Witness for C10 at a matched `class` declaration: the item extracted from
`class Foo() ...` has type `function`. -/
theorem claim10_witness :
    ({ type := "function", name := "Foo", line := 1,
       code := "class Foo()".data } : UndocumentedItem).type = "function" :=
  claim10_js_items_always_function "class Foo() {}".data "a.js" "javascript"
    { type := "function", name := "Foo", line := 1,
      code := "class Foo()".data }
    (by decide)

end Refacto
